import Mathlib

/-!
Verification of an MPSC blocking channel built from a mutex, a condition
variable, a `VecDeque` of pending items and a live-producer counter
(`src/src/lib.rs`).  The shared state (`Inner`) holds `queue` and `sender`;
the receiver additionally owns a private `buffer`.  We embed the channel
state as a single record carrying all three components and translate each
operation of the Rust source into a pure state transformer.  A `recv` call
that would sleep on the condition variable (queue and buffer empty,
producers alive) is modelled by an explicit `blocked` outcome, since under
sequential semantics no concurrent mutation can occur during the wait.
-/

namespace Channel

/-- The channel state visible to one `Sender`/`Receiver` pair:
`queue` and `sender` live in the lock-protected `Inner`,
`buffer` is the receiver-private `VecDeque` (`Receiver.buffer`).
The front of each list is the `VecDeque` front (`pop_front` takes the head,
`push_back` appends at the tail). -/
structure ChanState (T : Type) where
  queue : List T
  sender : Nat
  buffer : List T
  deriving Repr, DecidableEq

/-- `channel::<T>()`: fresh `Inner` with empty queue and `sender = 1`, and a
receiver whose private buffer starts empty. -/
def channelInit (T : Type) : ChanState T :=
  { queue := [], sender := 1, buffer := [] }

/-- `Sender::send`: lock, `queue.push_back(t)`, unlock, `notify_one`.
The notification itself has no effect on the embedded state. -/
def send (t : T) (s : ChanState T) : ChanState T :=
  { s with queue := s.queue ++ [t] }

/-- `Sender::clone`: lock, `sender += 1`, unlock; the new handle shares the
same state. -/
def cloneSender (s : ChanState T) : ChanState T :=
  { s with sender := s.sender + 1 }

/-- `Sender::drop`: lock, `sender -= 1`, record `was_last = (sender == 0)`,
unlock, and notify the condition variable iff `was_last`.  The returned
boolean is that notification flag. -/
def dropSender (s : ChanState T) : ChanState T × Bool :=
  let s' := { s with sender := s.sender - 1 }
  (s', s'.sender == 0)

/-- Outcome of one `recv` call: either it returns `v : Option T` leaving the
state `s`, or it would block on the condition variable in state `s`
(queue and buffer empty, at least one producer alive). -/
inductive RecvResult (T : Type) where
  | ret (v : Option T) (s : ChanState T)
  | blocked (s : ChanState T)
  deriving Repr, DecidableEq

/-- One iteration of the locked loop of `Receiver::recv`, for an arbitrary
receiver-local buffer: `match inner.queue.pop_front()`; on `Some t`, if the
queue still has items, `mem::swap(&mut self.buffer, &mut inner.queue)`
(the old buffer contents go to the shared queue and vice versa); on `None`,
return `None` when `inner.sender < 1`, otherwise wait on the condvar. -/
def recvLocked (s : ChanState T) : RecvResult T :=
  match s.queue with
  | t :: rest =>
      if rest.isEmpty then
        .ret (some t) { s with queue := rest }
      else
        .ret (some t) { s with queue := s.buffer, buffer := rest }
  | [] =>
      if s.sender < 1 then .ret none s else .blocked s

/-- `Receiver::recv`: if the private buffer is non-empty, pop and return its
front without touching the lock; otherwise take the lock and run the loop
(the buffer carried into the loop is the receiver's, which is empty here). -/
def recv (s : ChanState T) : RecvResult T :=
  match s.buffer with
  | b :: bs => .ret (some b) { s with buffer := bs }
  | [] => recvLocked s

/-- `Iterator::next` for `Receiver` just calls `self.recv()`. -/
def next (s : ChanState T) : RecvResult T :=
  recv s

/-- Send a whole list of items in order (repeated `Sender::send`). -/
def sendAll (ts : List T) (s : ChanState T) : ChanState T :=
  ts.foldl (fun s t => send t s) s

/-- Run `n` successive `recv` calls, collecting the returned values; `none`
as overall result records that some call blocked (never happens once the
producer count is zero). -/
def recvMany : Nat → ChanState T → Option (List (Option T) × ChanState T)
  | 0, s => some ([], s)
  | n + 1, s =>
      match recv s with
      | .ret v s' =>
          match recvMany n s' with
          | some (vs, s'') => some (v :: vs, s'')
          | none => none
      | .blocked _ => none

/-! ### Baseline (unbuffered) receiver, for the refinement claim

Modelled from the spec: the baseline implementation that "always goes
through the lock" — every `recv` pops one item from the shared queue under
the lock, with no receiver-local buffer (spec §4.3 step 2 and §9,
"Local-buffer batching is a pure performance optimization ... an
implementation may omit it (always going through the lock)"). -/

/-- Baseline shared state: just the locked queue and producer count. -/
structure BState (T : Type) where
  queue : List T
  sender : Nat
  deriving Repr, DecidableEq

/-- Outcome of one baseline `recv` call. -/
inductive BRecvResult (T : Type) where
  | ret (v : Option T) (s : BState T)
  | blocked (s : BState T)
  deriving Repr, DecidableEq

/-- Modelled from the spec: baseline `recv` always pops the front of the
shared queue under the lock; empty queue returns "no more items" when no
producer is alive, and blocks otherwise. -/
def baseRecv (s : BState T) : BRecvResult T :=
  match s.queue with
  | t :: rest => .ret (some t) { s with queue := rest }
  | [] => if s.sender < 1 then .ret none s else .blocked s

/-- Baseline `send` appends at the tail of the shared queue. -/
def baseSend (t : T) (s : BState T) : BState T :=
  { s with queue := s.queue ++ [t] }

/-- Baseline `Sender::clone`. -/
def baseClone (s : BState T) : BState T :=
  { s with sender := s.sender + 1 }

/-- Baseline `Sender::drop`. -/
def baseDrop (s : BState T) : BState T :=
  { s with sender := s.sender - 1 }

/-! ### Operation traces -/

/-- One external operation on the channel. -/
inductive Op (T : Type) where
  | send (t : T)
  | sclone
  | sdrop
  | recv
  deriving Repr, DecidableEq

/-- What a trace observes: each `recv` either returns a value or blocks
(a block ends the trace, since no later operation of the sequence can run
before the sleeping receiver is woken). -/
inductive Obs (T : Type) where
  | val (v : Option T)
  | blocked
  deriving Repr, DecidableEq

/-- Run a sequence of operations against the buffered implementation,
collecting the `recv` observations. -/
def runBuffered : List (Op T) → ChanState T → List (Obs T)
  | [], _ => []
  | op :: ops, s =>
      match op with
      | .send t => runBuffered ops (send t s)
      | .sclone => runBuffered ops (cloneSender s)
      | .sdrop => runBuffered ops (dropSender s).1
      | .recv =>
          match recv s with
          | .ret v s' => .val v :: runBuffered ops s'
          | .blocked _ => [.blocked]

/-- Run a sequence of operations against the baseline implementation. -/
def runBaseline : List (Op T) → BState T → List (Obs T)
  | [], _ => []
  | op :: ops, s =>
      match op with
      | .send t => runBaseline ops (baseSend t s)
      | .sclone => runBaseline ops (baseClone s)
      | .sdrop => runBaseline ops (baseDrop s)
      | .recv =>
          match baseRecv s with
          | .ret v s' => .val v :: runBaseline ops s'
          | .blocked _ => [.blocked]

/-- Final state after running a sequence of operations against the buffered
implementation (a blocked `recv` leaves the state unchanged). -/
def applyOps : List (Op T) → ChanState T → ChanState T
  | [], s => s
  | op :: ops, s =>
      match op with
      | .send t => applyOps ops (send t s)
      | .sclone => applyOps ops (cloneSender s)
      | .sdrop => applyOps ops (dropSender s).1
      | .recv =>
          match recv s with
          | .ret _ s' => applyOps ops s'
          | .blocked s' => applyOps ops s'

/-- Number of `Sender::clone` operations in a trace. -/
def countClone : List (Op T) → Nat
  | [] => 0
  | .sclone :: ops => countClone ops + 1
  | _ :: ops => countClone ops

/-- Number of `Sender::drop` operations in a trace. -/
def countDrop : List (Op T) → Nat
  | [] => 0
  | .sdrop :: ops => countDrop ops + 1
  | _ :: ops => countDrop ops

/-- `okDrops ops n` checks that along `ops`, starting from `n` live sender
handles, no `Sender::drop` ever runs with zero handles alive (the only way
the trace can be produced by real handle lifetimes). -/
def okDrops : List (Op T) → Nat → Bool
  | [], _ => true
  | op :: ops, n =>
      match op with
      | .sdrop => decide (0 < n) && okDrops ops (n - 1)
      | .sclone => okDrops ops (n + 1)
      | _ => okDrops ops n

/-! ### Basic lemmas about `recv` -/

/-- Every outcome of `recv` leaves the producer count unchanged. -/
lemma recv_sender_eq (s : ChanState T) :
    ∀ v s', recv s = .ret v s' → s'.sender = s.sender := by
  obtain ⟨q, n, buf⟩ := s
  intro v s' h
  cases buf with
  | cons b bs =>
      simp only [recv] at h
      cases h
      rfl
  | nil =>
      cases q with
      | nil =>
          simp only [recv, recvLocked] at h
          split at h
          · cases h; rfl
          · cases h
      | cons t rest =>
          simp only [recv, recvLocked] at h
          split at h <;> (cases h; rfl)

/-- A blocked `recv` leaves the state exactly as it found it. -/
lemma recv_blocked_eq (s : ChanState T) :
    ∀ s', recv s = .blocked s' → s' = s := by
  obtain ⟨q, n, buf⟩ := s
  intro s' h
  cases buf with
  | cons b bs => simp only [recv] at h; cases h
  | nil =>
      cases q with
      | nil =>
          simp only [recv, recvLocked] at h
          split at h
          · cases h
          · cases h; rfl
      | cons t rest =>
          simp only [recv, recvLocked] at h
          split at h <;> cases h

/-- `recv` returns `none` exactly on the closed, fully drained state. -/
lemma recv_ret_none_iff (s : ChanState T) :
    (∃ s', recv s = .ret none s') ↔ s.sender = 0 ∧ s.queue = [] ∧ s.buffer = [] := by
  obtain ⟨q, n, buf⟩ := s
  constructor
  · rintro ⟨s', h⟩
    cases buf with
    | cons b bs => simp only [recv] at h; cases h
    | nil =>
        cases q with
        | nil =>
            simp only [recv, recvLocked] at h
            split at h
            · next hn => exact ⟨Nat.lt_one_iff.mp hn, rfl, rfl⟩
            · cases h
        | cons t rest =>
            simp only [recv, recvLocked] at h
            split at h <;> cases h
  · rintro ⟨hn, hq, hb⟩
    simp only at hn hq hb
    subst hn hq hb
    exact ⟨_, rfl⟩

/-- When `recv` returns `none` it also leaves the state unchanged. -/
lemma recv_ret_none_state (s s' : ChanState T) (h : recv s = .ret none s') :
    s' = s ∧ s.sender = 0 ∧ s.queue = [] ∧ s.buffer = [] := by
  have hc := (recv_ret_none_iff s).mp ⟨s', h⟩
  obtain ⟨q, n, buf⟩ := s
  obtain ⟨hn, hq, hb⟩ := hc
  simp only at hn hq hb
  subst hn hq hb
  simp only [recv, recvLocked, Nat.lt_irrefl, Nat.zero_lt_one, if_pos] at h
  cases h
  exact ⟨rfl, rfl, rfl, rfl⟩

/-- Sending a list of items appends them, in order, at the tail of the
shared queue. -/
lemma sendAll_state (ts : List T) : ∀ (q : List T) (n : Nat) (buf : List T),
    sendAll ts ⟨q, n, buf⟩ = ⟨q ++ ts, n, buf⟩ := by
  induction ts with
  | nil => intro q n buf; simp [sendAll]
  | cons t ts ih =>
      intro q n buf
      have : sendAll (t :: ts) (⟨q, n, buf⟩ : ChanState T)
          = sendAll ts ⟨q ++ [t], n, buf⟩ := rfl
      rw [this, ih]
      simp

/-- Unfold one `recv` call of `recvMany`. -/
lemma recvMany_succ (n : Nat) (s : ChanState T) :
    recvMany (n + 1) s =
      match recv s with
      | .ret v s' =>
          match recvMany n s' with
          | some (vs, s'') => some (v :: vs, s'')
          | none => none
      | .blocked _ => none := rfl

/-- Once the producer count is zero, successive `recv` calls return all
buffered items, then all queued items, then `none`, ending in the empty
state. -/
lemma recvMany_closed_drains : ∀ (n : Nat) (buf q : List T),
    (buf ++ q).length = n →
    recvMany (n + 1) (⟨q, 0, buf⟩ : ChanState T)
      = some ((buf ++ q).map some ++ [none], ⟨[], 0, []⟩) := by
  intro n
  induction n with
  | zero =>
      intro buf q hlen
      rw [List.length_eq_zero, List.append_eq_nil] at hlen
      obtain ⟨hb, hq⟩ := hlen
      subst hb hq
      rfl
  | succ n ih =>
      intro buf q hlen
      cases buf with
      | cons b bs =>
          rw [recvMany_succ]
          have hstep : recv (⟨q, 0, b :: bs⟩ : ChanState T)
              = .ret (some b) ⟨q, 0, bs⟩ := rfl
          rw [hstep]
          have hlen' : (bs ++ q).length = n := by
            simp only [List.cons_append, List.length_cons] at hlen
            omega
          simp [ih bs q hlen']
      | nil =>
          cases q with
          | nil => simp at hlen
          | cons t rest =>
              cases rest with
              | nil =>
                  have hn : n = 0 := by simpa using hlen
                  subst hn
                  rfl
              | cons r rs =>
                  rw [recvMany_succ]
                  have hstep : recv (⟨t :: r :: rs, 0, []⟩ : ChanState T)
                      = .ret (some t) ⟨[], 0, r :: rs⟩ := rfl
                  rw [hstep]
                  have hlen' : ((r :: rs) ++ ([] : List T)).length = n := by
                    simp only [List.append_nil, List.length_cons]
                    simp only [List.nil_append, List.length_cons] at hlen
                    omega
                  have hdrain := ih (r :: rs) [] hlen'
                  simp only [List.append_nil] at hdrain
                  simp [hdrain]

/-- The producer count only moves as the trace's clones and drops dictate:
along any trace that never drops a dead handle, the final count plus the
number of drops equals the starting count plus the number of clones. -/
lemma applyOps_sender (ops : List (Op T)) : ∀ (s : ChanState T),
    okDrops ops s.sender = true →
    (applyOps ops s).sender + countDrop ops = s.sender + countClone ops := by
  induction ops with
  | nil => intro s _; simp [applyOps, countDrop, countClone]
  | cons op ops ih =>
      intro s h
      cases op with
      | send t =>
          simp only [okDrops] at h
          have hstep : applyOps (Op.send t :: ops) s = applyOps ops (send t s) := rfl
          rw [hstep]
          simp only [countDrop, countClone]
          exact ih (send t s) h
      | sclone =>
          simp only [okDrops] at h
          have hstep : applyOps (Op.sclone :: ops) s = applyOps ops (cloneSender s) := rfl
          rw [hstep]
          simp only [countDrop, countClone]
          have := ih (cloneSender s) h
          have hcs : (cloneSender s).sender = s.sender + 1 := rfl
          rw [hcs] at this
          omega
      | sdrop =>
          simp only [okDrops, Bool.and_eq_true, decide_eq_true_eq] at h
          have hstep : applyOps (Op.sdrop :: ops) s = applyOps ops (dropSender s).1 := rfl
          rw [hstep]
          simp only [countDrop, countClone]
          have := ih (dropSender s).1 h.2
          have hds : (dropSender s).1.sender = s.sender - 1 := rfl
          rw [hds] at this
          have h1 := h.1
          omega
      | recv =>
          simp only [okDrops] at h
          cases hr : recv s with
          | ret v s' =>
              have hstep : applyOps (Op.recv :: ops) s = applyOps ops s' := by
                simp [applyOps, hr]
              rw [hstep]
              simp only [countDrop, countClone]
              have hs' : s'.sender = s.sender := recv_sender_eq s v s' hr
              have := ih s' (by rw [hs']; exact h)
              omega
          | blocked s' =>
              have heq : s' = s := recv_blocked_eq s s' hr
              subst heq
              have hstep : applyOps (Op.recv :: ops) s' = applyOps ops s' := by
                simp [applyOps, hr]
              rw [hstep]
              simp only [countDrop, countClone]
              exact ih s' h

/-- One buffered step and one baseline step agree whenever the baseline
queue is the receiver buffer followed by the shared queue; the whole runs
then produce identical observation sequences. -/
lemma run_sim (ops : List (Op T)) : ∀ (buf q : List T) (n : Nat),
    runBuffered ops ⟨q, n, buf⟩ = runBaseline ops ⟨buf ++ q, n⟩ := by
  induction ops with
  | nil => intro buf q n; rfl
  | cons op ops ih =>
      intro buf q n
      cases op with
      | send t =>
          simp only [runBuffered, runBaseline, send, baseSend]
          rw [ih buf (q ++ [t]) n, List.append_assoc]
      | sclone =>
          simp only [runBuffered, runBaseline, cloneSender, baseClone]
          exact ih buf q (n + 1)
      | sdrop =>
          simp only [runBuffered, runBaseline, dropSender, baseDrop]
          exact ih buf q (n - 1)
      | recv =>
          cases buf with
          | cons b bs =>
              simp [runBuffered, runBaseline, recv, baseRecv, ih bs q n]
          | nil =>
              cases q with
              | nil =>
                  by_cases hn : n < 1
                  · simp [runBuffered, runBaseline, recv, recvLocked,
                      baseRecv, hn, ih [] [] n]
                  · simp [runBuffered, runBaseline, recv, recvLocked, baseRecv, hn]
              | cons t rest =>
                  cases rest with
                  | nil =>
                      simp [runBuffered, runBaseline, recv, recvLocked,
                        baseRecv, ih [] [] n]
                  | cons r rs =>
                      have hrun := ih (r :: rs) [] n
                      simp only [List.append_nil] at hrun
                      simp [runBuffered, runBaseline, recv, recvLocked,
                        baseRecv, hrun]

/-! ### Claim theorems -/

/-- C1: after sending a finite sequence of items through the channel created
by the factory and then dropping the sender, the next `N` `recv()` calls
return exactly those items, each as `some`, in send order, and the
`(N+1)`-th call returns `none` ("no more items"); no call blocks. -/
theorem channel_delivers_in_send_order (T : Type) (items : List T) :
    recvMany (items.length + 1) (dropSender (sendAll items (channelInit T))).1
      = some (items.map some ++ [none], ⟨[], 0, []⟩) := by
  have hs : sendAll items (channelInit T) = ⟨items, 1, []⟩ := by
    simpa using sendAll_state items [] 1 []
  rw [hs]
  have hd := recvMany_closed_drains items.length ([] : List T) items (by simp)
  simpa using hd

/-- C3: the local-buffer optimization is observationally invisible.  For
every sequence of operations, the buffered implementation produces exactly
the observations of the baseline implementation that always pops from the
shared queue under the lock, both from the initial channel state and, more
generally, from any pair of states related by "baseline queue = buffer
followed by shared queue". -/
theorem buffered_refines_baseline (T : Type) :
    (∀ (ops : List (Op T)) (buf q : List T) (n : Nat),
        runBuffered ops ⟨q, n, buf⟩ = runBaseline ops ⟨buf ++ q, n⟩)
    ∧ ∀ ops : List (Op T),
        runBuffered ops (channelInit T) = runBaseline ops ⟨[], 1⟩ :=
  ⟨fun ops buf q n => run_sim ops buf q n,
   fun ops => run_sim ops [] [] 1⟩

/-- C4: the producer count tracks the live `Sender` handles exactly: the
factory starts it at 1, `clone` adds 1, `drop` removes 1, `send` and
`recv` leave it unchanged; hence along any trace whose drops match real
handle lifetimes, the count always equals one (the initial sender) plus
the clones minus the drops performed so far. -/
theorem producer_count_tracks_handles (T : Type) (s : ChanState T) (t : T)
    (ops : List (Op T)) (hok : okDrops ops 1 = true) :
    (channelInit T).sender = 1
      ∧ (cloneSender s).sender = s.sender + 1
      ∧ (dropSender s).1.sender = s.sender - 1
      ∧ (0 < s.sender → (dropSender s).1.sender + 1 = s.sender)
      ∧ (send t s).sender = s.sender
      ∧ (∀ v s', recv s = .ret v s' → s'.sender = s.sender)
      ∧ (applyOps ops (channelInit T)).sender + countDrop ops
          = countClone ops + 1 := by
  refine ⟨rfl, rfl, rfl, ?_, rfl, recv_sender_eq s, ?_⟩
  · intro h
    have : (dropSender s).1.sender = s.sender - 1 := rfl
    omega
  · have happ := applyOps_sender ops (channelInit T) hok
    have h1 : (channelInit T).sender = 1 := rfl
    rw [h1] at happ
    omega

/-- C4 witness: on the trace clone, send, recv, drop the final count plus
the one drop equals the one clone plus one; dropping one of two live
handles leaves one. -/
theorem producer_count_tracks_handles_witness :
    (dropSender (⟨[], 2, []⟩ : ChanState Nat)).1.sender + 1 = 2
      ∧ (applyOps [Op.sclone, Op.send 5, Op.recv, Op.sdrop] (channelInit Nat)).sender
          + countDrop [Op.sclone, Op.send 5, Op.recv, Op.sdrop]
          = countClone ([Op.sclone, Op.send 5, Op.recv, Op.sdrop] : List (Op Nat)) + 1 := by
  have h := producer_count_tracks_handles Nat ⟨[], 2, []⟩ 5
    [Op.sclone, Op.send 5, Op.recv, Op.sdrop] (by decide)
  exact ⟨h.2.2.2.1 (by decide), h.2.2.2.2.2.2⟩

/-- C2: `recv()` returns "no more items" (`none`) iff the producer count is
zero and both the shared queue and the receiver's local buffer are empty;
in particular, after creating a channel and dropping the single `Sender`
without sending, the first `recv()` returns `none` (it does not block). -/
theorem recv_none_iff_closed_and_drained (T : Type) (s : ChanState T) :
    ((∃ s', recv s = .ret none s') ↔ s.sender = 0 ∧ s.queue = [] ∧ s.buffer = [])
    ∧ recv (dropSender (channelInit T)).1 = .ret none (dropSender (channelInit T)).1 := by
  refine ⟨recv_ret_none_iff s, ?_⟩
  rfl

/-- C5: closure is permanent.  If a `recv` call returns `none`, the state is
unchanged, every later `recv` (and every later `Iterator::next`, which is
exactly `recv`) returns `none` again, and any number of further calls
yields only `none`s. -/
theorem recv_none_is_permanent (T : Type) (s s' : ChanState T)
    (h : recv s = .ret none s') :
    s' = s ∧ recv s' = .ret none s' ∧ next s' = .ret none s'
      ∧ ∀ n, recvMany n s' = some (List.replicate n none, s') := by
  have hc := recv_ret_none_state s s' h
  obtain ⟨q, m, buf⟩ := s
  obtain ⟨hss, hn, hq, hb⟩ := hc
  subst hss
  simp only at hn hq hb
  subst hn hq hb
  refine ⟨rfl, rfl, rfl, ?_⟩
  intro n
  induction n with
  | zero => rfl
  | succ k ih =>
      simp [recvMany, recv, recvLocked, List.replicate_succ, ih]

/-- C5 witness: closure permanence at the concrete drained closed state. -/
theorem recv_none_is_permanent_witness :
    recv (⟨[], 0, []⟩ : ChanState Nat) = .ret none ⟨[], 0, []⟩
      ∧ recvMany 2 (⟨[], 0, []⟩ : ChanState Nat) = some ([none, none], ⟨[], 0, []⟩) := by
  have h := recv_none_is_permanent Nat ⟨[], 0, []⟩ ⟨[], 0, []⟩ rfl
  exact ⟨h.2.1, by simpa using h.2.2.2 2⟩

/-- C6: when `recv` pops the front of a non-empty shared queue (so the local
buffer is empty) and the queue still has items after the pop, the whole
remainder is exchanged into the local buffer and the shared queue is left
empty (it receives the old, empty, buffer), and the popped item is
returned. -/
theorem recv_swaps_remainder_into_buffer (T : Type) (s : ChanState T)
    (t : T) (rest : List T) (hb : s.buffer = []) (hq : s.queue = t :: rest)
    (hr : rest ≠ []) :
    recv s = .ret (some t) { queue := [], sender := s.sender, buffer := rest } := by
  obtain ⟨q, n, buf⟩ := s
  simp only at hb hq
  subst hb hq
  simp [recv, recvLocked, hr]

/-- C6 witness: popping `1` from queue `[1, 2, 3]` with an empty buffer
moves `[2, 3]` into the buffer and empties the shared queue. -/
theorem recv_swaps_remainder_into_buffer_witness :
    recv (⟨[1, 2, 3], 1, []⟩ : ChanState Nat) = .ret (some 1) ⟨[], 1, [2, 3]⟩ :=
  recv_swaps_remainder_into_buffer Nat ⟨[1, 2, 3], 1, []⟩ 1 [2, 3] rfl rfl (by decide)

/-- C7: when the local buffer is non-empty, `recv` pops and returns the
buffer's front without the lock, and the shared queue and producer count
are left completely unchanged. -/
theorem recv_fast_path_frame (T : Type) (s : ChanState T) (b : T) (bs : List T)
    (hb : s.buffer = b :: bs) :
    recv s = .ret (some b) { queue := s.queue, sender := s.sender, buffer := bs } := by
  obtain ⟨q, n, buf⟩ := s
  simp only at hb
  subst hb
  rfl

/-- C7 witness: with buffer `[7, 8]`, `recv` returns `7` and leaves the
shared queue `[9]` and producer count `2` untouched. -/
theorem recv_fast_path_frame_witness :
    recv (⟨[9], 2, [7, 8]⟩ : ChanState Nat) = .ret (some 7) ⟨[9], 2, [8]⟩ :=
  recv_fast_path_frame Nat ⟨[9], 2, [7, 8]⟩ 7 [8] rfl

/-- C8: `send` is a total function that appends its item at the tail of the
shared queue and changes nothing else: the producer count, the previously
queued items (they stay as the prefix of the new queue), and the receiver's
buffer are all untouched.  Nothing in its definition consults any receiver,
so it cannot fail regardless of the receiver's fate. -/
theorem send_appends_at_tail (T : Type) (t : T) (s : ChanState T) :
    (send t s).queue = s.queue ++ [t]
      ∧ (send t s).sender = s.sender
      ∧ (send t s).buffer = s.buffer
      ∧ (send t s).queue.take s.queue.length = s.queue := by
  refine ⟨rfl, rfl, rfl, ?_⟩
  simp [send]

/-- C10: the locked loop is reached exactly when the receiver's local buffer
is empty (a non-empty buffer is fully handled by the fast path); the swap
never discards buffered items — the old buffer becomes the new shared
queue — hence in every actual call reaching the swap the shared queue is
left empty. -/
theorem recv_locked_loop_buffer_empty (T : Type) (s : ChanState T) :
    (s.buffer ≠ [] →
      recv s = .ret s.buffer.head? { s with buffer := s.buffer.tail })
    ∧ (s.buffer = [] → recv s = recvLocked s)
    ∧ (∀ t rest, s.queue = t :: rest → rest ≠ [] →
        recvLocked s = .ret (some t) { s with queue := s.buffer, buffer := rest })
    ∧ (s.buffer = [] → ∀ t rest, s.queue = t :: rest → rest ≠ [] →
        ∃ s', recv s = .ret (some t) s' ∧ s'.queue = [] ∧ s'.buffer = rest) := by
  obtain ⟨q, n, buf⟩ := s
  refine ⟨?_, ?_, ?_, ?_⟩
  · intro hb
    cases buf with
    | nil => exact absurd rfl hb
    | cons b bs => rfl
  · intro hb
    simp only at hb
    subst hb
    rfl
  · intro t rest hq hr
    simp only at hq
    subst hq
    simp [recvLocked, hr]
  · intro hb t rest hq hr
    simp only at hb hq
    subst hb hq
    exact ⟨⟨[], n, rest⟩, by simp [recv, recvLocked, hr], rfl, rfl⟩

/-- C10 witness: at queue `[4, 5]`, empty buffer, the call reaches the lock
and the swap leaves the queue empty with `[5]` buffered. -/
theorem recv_locked_loop_buffer_empty_witness :
    recv (⟨[4, 5], 1, []⟩ : ChanState Nat) = recvLocked ⟨[4, 5], 1, []⟩
      ∧ ∃ s', recv (⟨[4, 5], 1, []⟩ : ChanState Nat) = .ret (some 4) s'
          ∧ s'.queue = [] ∧ s'.buffer = [5] := by
  have h := recv_locked_loop_buffer_empty Nat ⟨[4, 5], 1, []⟩
  exact ⟨h.2.1 rfl, h.2.2.2 rfl 4 [5] rfl (by decide)⟩

end Channel
